import Mathlib

/-!
Verification of the URL-shortening service (`src/app.py`).

The development shallowly embeds the program:

* `encode_base62` mirrors the Python function of the same name: machine
  integers become `Int`, the `raise ValueError` path becomes `Except.error`,
  and the `while` loop collecting remainders becomes the recursion
  `encodeDigits` on the (positive) magnitude.
* The SQLite-backed `URLRepository` becomes explicit state passing over
  `RepoState`: the `urls` table is a list of rows, and the
  `AUTOINCREMENT` primary-key counter is `nextId` (SQLite assigns
  `max rowid ever + 1`, starting at 1, never reusing ids).
* The Python `with connection:` block of `sqlite3` commits the enclosed
  statements as one transaction on normal exit and rolls them back on an
  exception; other connections only ever observe committed states.  This is
  modelled by `createObservableStates`, the list of repository states a
  concurrent reader can see while `create` runs.
* The Flask handler `shorten` becomes a function over an optional parsed
  JSON body (`none` models a request body that is absent or fails to parse,
  which `request.get_json(silent=True)` turns into Python `None`).
-/

/-- Embeds `BASE62_ALPHABET` from `src/app.py`: digits, lowercase, uppercase. -/
def BASE62_ALPHABET : String :=
  "0123456789abcdefghijklmnopqrstuvwxyzABCDEFGHIJKLMNOPQRSTUVWXYZ"

/-- Embeds the subscript `BASE62_ALPHABET[rem]`.  The default `'0'` is never
used: every index passed is a remainder modulo 62, and the alphabet has 62
characters. -/
def digitChar (r : Nat) : Char := BASE62_ALPHABET.data.getD r '0'

/-- Embeds the `while number:` loop of `encode_base62` on the positive
magnitude, producing the remainders' characters least-significant first
(the order in which the Python loop appends them to `encoded`). -/
def encodeDigits (n : Nat) : List Char :=
  if h : n = 0 then []
  else digitChar (n % 62) :: encodeDigits (n / 62)
termination_by n
decreasing_by exact Nat.div_lt_self (Nat.pos_of_ne_zero h) (by norm_num)

/-- Embeds `encode_base62` from `src/app.py`.  `raise ValueError(...)` becomes
`Except.error` with the Python message; otherwise the collected characters are
reversed and joined, most-significant digit first.  For a positive `int`,
Python `divmod` agrees with natural-number division on the magnitude. -/
def encode_base62 (number : Int) : Except String String :=
  if number ≤ 0 then Except.error "number must be positive"
  else Except.ok (String.mk (encodeDigits number.toNat).reverse)

/-- Fuel-indexed version of the `while number:` loop: `none` means the loop
did not finish within the given number of iterations.  Used to state that the
loop terminates (claim about termination). -/
def encodeLoopFuel : Nat → Nat → Option (List Char)
  | 0, n => if n = 0 then some [] else none
  | fuel + 1, n =>
      if n = 0 then some []
      else (encodeLoopFuel fuel (n / 62)).map (fun cs => digitChar (n % 62) :: cs)

/-- Standard positional base-62 representation, written from the spec's words:
the little-endian digits of `n` in base 62 (`Nat.digits`), mapped through the
alphabet, reversed so the most significant digit comes first.  `Nat.digits`
produces no leading zeros. -/
def standardBase62Rep (n : Nat) : String :=
  String.mk ((Nat.digits 62 n).map digitChar).reverse

/-- Embeds the `ShortURL` dataclass of `src/app.py`.  SQLite rowids are
positive integers, modelled as `Nat`. -/
structure ShortURL where
  id : Nat
  original_url : String
  code : String
deriving DecidableEq

/-- State of the `urls` table owned by `URLRepository`: the committed rows,
and the `AUTOINCREMENT` counter (SQLite hands out `nextId` on the next insert
and never reuses an id, even across failed attempts). -/
structure RepoState where
  rows : List ShortURL
  nextId : Nat
deriving DecidableEq

/-- The state produced by `_ensure_schema` on a fresh database: an empty
`urls` table, with the first id to be assigned equal to 1. -/
def emptyRepo : RepoState := ⟨[], 1⟩

/-- Embeds the `INSERT INTO urls (original_url, code) VALUES (?, ?)`
statement: appends a row carrying the freshly assigned rowid, and returns
that rowid (`cursor.lastrowid`, which is never `None` after a successful
`INSERT`, so the `RuntimeError` guard in `create` is unreachable). -/
def insertRow (st : RepoState) (original_url code : String) : RepoState × Nat :=
  (⟨st.rows ++ [⟨st.nextId, original_url, code⟩], st.nextId + 1⟩, st.nextId)

/-- Embeds the `UPDATE urls SET code = ? WHERE id = ?` statement. -/
def updateCode (st : RepoState) (url_id : Nat) (code : String) : RepoState :=
  ⟨st.rows.map (fun r => if r.id = url_id then ⟨r.id, r.original_url, code⟩ else r),
   st.nextId⟩

namespace URLRepository

/-- Embeds `URLRepository.create`: inside one `with connection:` block, insert
the row with a temporary empty code, read back `lastrowid`, encode it, and
update the row's code.  An exception anywhere in the block (here: the
`ValueError` from `encode_base62`) propagates as `Except.error` and the
transaction is rolled back (see `createObservableStates`). -/
def create (st : RepoState) (original_url : String) :
    Except String (ShortURL × RepoState) :=
  let inserted := insertRow st original_url ""
  let url_id := inserted.2
  match encode_base62 (Int.ofNat url_id) with
  | Except.error e => Except.error e
  | Except.ok code =>
      Except.ok (⟨url_id, original_url, code⟩, updateCode inserted.1 url_id code)

/-- Embeds `URLRepository.fetch_by_code`: `SELECT ... WHERE code = ?` with
`fetchone`, an exact string match returning `None` (here `none`) when no row
matches.  The function is total: it returns, never raises. -/
def fetch_by_code (st : RepoState) (code : String) : Option ShortURL :=
  st.rows.find? (fun r => r.code = code)

end URLRepository

/-- The committed repository states a reader on another connection can
observe while `create st u` executes.  Python's `sqlite3` connection used as
a context manager runs the enclosed `INSERT` and `UPDATE` in a single
transaction: it commits on normal exit and rolls back when an exception
escapes the block, and uncommitted writes are invisible to other
connections.  So a concurrent reader sees the pre-state until the commit,
then the post-state on success — and only ever the pre-state on failure. -/
def createObservableStates (st : RepoState) (u : String) : List RepoState :=
  match URLRepository.create st u with
  | Except.ok (_, st2) => [st, st2]
  | Except.error _ => [st, st]

/-- Reachable-state invariant of the repository: the counter is at least 1,
and every committed row has a positive id below the counter and carries
exactly the encoding of its id. -/
def RepoInv (st : RepoState) : Prop :=
  1 ≤ st.nextId ∧
    ∀ r ∈ st.rows, 1 ≤ r.id ∧ r.id < st.nextId ∧
      encode_base62 (Int.ofNat r.id) = Except.ok r.code

/-- Parsed JSON values as Python's `json` module produces them (`None`,
`bool`, `int`, `str`, `list`, `dict`).  Floats do not occur in any input the
claims consider. -/
inductive PyJson where
  | null
  | bool (b : Bool)
  | num (n : Int)
  | str (s : String)
  | arr (elems : List PyJson)
  | obj (fields : List (String × PyJson))

/-- Python truthiness of a parsed JSON value: `None`, `False`, `0`, the empty
string, the empty list and the empty dict are falsy. -/
def pyTruthy : PyJson → Bool
  | PyJson.null => false
  | PyJson.bool b => b
  | PyJson.num n => n ≠ 0
  | PyJson.str s => s ≠ ""
  | PyJson.arr elems => !elems.isEmpty
  | PyJson.obj fields => !fields.isEmpty

/-- Embeds `payload.get(key)` on a parsed JSON dict: the value under the
first matching key, or `none` (Python `None`) when the key is absent. -/
def dictGet : List (String × PyJson) → String → Option PyJson
  | [], _ => none
  | (k, v) :: rest, key => if k = key then some v else dictGet rest key

/-- An HTTP response of the Flask layer: status code plus JSON body. -/
structure HttpResponse where
  status : Nat
  body : PyJson

/-- Embeds the `shorten` Flask handler.  `body = none` models a request body
that is absent or fails to parse as JSON, for which
`request.get_json(silent=True)` returns Python `None`; the handler's
`or {}` then substitutes the empty dict (it also replaces any falsy parsed
value, e.g. `{}` itself).  The guard
`if not original_url or not isinstance(original_url, str)` rejects exactly
the cases where the `url` field is absent, `null`, non-string, or the empty
string, so only a nonempty JSON string reaches `repository.create`.  A
payload that is not a dict would raise `AttributeError` on `.get`
(`Except.error`); a failure inside `create` propagates unchanged. -/
def shorten (base_url : String) (st : RepoState) (body : Option PyJson) :
    Except String (HttpResponse × RepoState) :=
  let payload : PyJson :=
    match body with
    | none => PyJson.obj []
    | some j => if pyTruthy j then j else PyJson.obj []
  match payload with
  | PyJson.obj fields =>
      match dictGet fields "url" with
      | some (PyJson.str s) =>
          if s = "" then
            Except.ok (⟨400, PyJson.obj [("error", PyJson.str "url is required")]⟩, st)
          else
            match URLRepository.create st s with
            | Except.error e => Except.error e
            | Except.ok (su, st2) =>
                Except.ok
                  (⟨201, PyJson.obj
                      [("code", PyJson.str su.code),
                       ("short_url", PyJson.str (base_url ++ "/" ++ su.code)),
                       ("url", PyJson.str su.original_url)]⟩, st2)
      | _ =>
          Except.ok (⟨400, PyJson.obj [("error", PyJson.str "url is required")]⟩, st)
  | _ => Except.error "AttributeError"

section EncoderLemmas

lemma alphabet_length : BASE62_ALPHABET.data.length = 62 := by decide

lemma digitChar_mem : ∀ r, r < 62 → digitChar r ∈ BASE62_ALPHABET.data := by decide

lemma digitChar_injOn : ∀ a, a < 62 → ∀ b, b < 62 → digitChar a = digitChar b → a = b := by
  decide

/-- The loop computes exactly the base-62 digit string of `n`,
least-significant first. -/
lemma encodeDigits_eq_digits (n : Nat) :
    encodeDigits n = (Nat.digits 62 n).map digitChar := by
  induction n using Nat.strong_induction_on with
  | _ n ih =>
    rcases Nat.eq_zero_or_pos n with h0 | hpos
    · subst h0; rw [encodeDigits]; simp
    · rw [encodeDigits, Nat.digits_def' (by norm_num : 1 < 62) hpos]
      simp only [List.map_cons]
      rw [dif_neg (Nat.pos_iff_ne_zero.mp hpos)]
      rw [ih (n / 62) (Nat.div_lt_self hpos (by norm_num))]

lemma map_digitChar_injOn :
    ∀ l1 l2 : List Nat, (∀ x ∈ l1, x < 62) → (∀ x ∈ l2, x < 62) →
      l1.map digitChar = l2.map digitChar → l1 = l2 := by
  intro l1
  induction l1 with
  | nil => intro l2 _ _ h; cases l2 <;> simp_all
  | cons a l ih =>
    intro l2 h1 h2 h
    cases l2 with
    | nil => simp at h
    | cons b l2' =>
      simp only [List.map_cons, List.cons.injEq] at h
      have ha : a < 62 := h1 a (List.mem_cons_self a l)
      have hb : b < 62 := h2 b (List.mem_cons_self b l2')
      have hab : a = b := digitChar_injOn a ha b hb h.1
      have htl : l = l2' := by
        refine ih l2' (fun x hx => h1 x (List.mem_cons_of_mem _ hx))
          (fun x hx => h2 x (List.mem_cons_of_mem _ hx)) h.2
      rw [hab, htl]

/-- Positive inputs take the success branch, yielding the reversed digit
string. -/
lemma encode_base62_pos (n : Int) (h : 1 ≤ n) :
    encode_base62 n = Except.ok (String.mk (encodeDigits n.toNat).reverse) := by
  unfold encode_base62
  rw [if_neg (by omega)]

lemma encode_base62_eq_standard (n : Int) (h : 1 ≤ n) :
    encode_base62 n = Except.ok (standardBase62Rep n.toNat) := by
  rw [encode_base62_pos n h, standardBase62Rep, encodeDigits_eq_digits]

/-- The encoder is injective on positive integers. -/
lemma encode_base62_inj (m n : Int) (hm : 1 ≤ m) (hn : 1 ≤ n)
    (h : encode_base62 m = encode_base62 n) : m = n := by
  rw [encode_base62_pos m hm, encode_base62_pos n hn] at h
  have hstr : String.mk (encodeDigits m.toNat).reverse =
      String.mk (encodeDigits n.toNat).reverse := by
    injection h
  have hlists : (encodeDigits m.toNat).reverse = (encodeDigits n.toNat).reverse :=
    congrArg String.data hstr
  have hdig : encodeDigits m.toNat = encodeDigits n.toNat :=
    List.reverse_injective hlists
  rw [encodeDigits_eq_digits, encodeDigits_eq_digits] at hdig
  have hds : Nat.digits 62 m.toNat = Nat.digits 62 n.toNat := by
    refine map_digitChar_injOn _ _ ?_ ?_ hdig
    · exact fun x hx => Nat.digits_lt_base (by norm_num) hx
    · exact fun x hx => Nat.digits_lt_base (by norm_num) hx
  have : m.toNat = n.toNat := by
    have := congrArg (Nat.ofDigits 62) hds
    rwa [Nat.ofDigits_digits, Nat.ofDigits_digits] at this
  omega

/-- For positive `n` the encoded string is nonempty and drawn from the
alphabet. -/
lemma encode_base62_wf (n : Int) (h : 1 ≤ n) :
    ∃ s, encode_base62 n = Except.ok s ∧ s ≠ "" ∧
      ∀ c ∈ s.data, c ∈ BASE62_ALPHABET.data := by
  refine ⟨String.mk (encodeDigits n.toNat).reverse, encode_base62_pos n h, ?_, ?_⟩
  · intro hemp
    have hd : (encodeDigits n.toNat).reverse = [] := congrArg String.data hemp
    rw [List.reverse_eq_nil_iff, encodeDigits_eq_digits, List.map_eq_nil_iff] at hd
    exact (Nat.digits_ne_nil_iff_ne_zero.mpr (by omega)) hd
  · intro c hc
    simp only [List.mem_reverse] at hc
    rw [encodeDigits_eq_digits] at hc
    obtain ⟨r, hr, hrc⟩ := List.mem_map.mp hc
    exact hrc ▸ digitChar_mem r (Nat.digits_lt_base (by norm_num) hr)

/-- The loop body runs at most `n` times on input `n`: fuel `n` suffices. -/
lemma encodeLoopFuel_eq (fuel n : Nat) (h : n ≤ fuel) :
    encodeLoopFuel fuel n = some (encodeDigits n) := by
  induction fuel generalizing n with
  | zero =>
    have : n = 0 := Nat.le_zero.mp h
    subst this
    rw [encodeLoopFuel, if_pos rfl, encodeDigits]
    simp
  | succ f ih =>
    rcases Nat.eq_zero_or_pos n with h0 | hpos
    · subst h0
      rw [encodeLoopFuel, if_pos rfl, encodeDigits]
      simp
    · have hlt : n / 62 < n := Nat.div_lt_self hpos (by norm_num)
      have hdiv : n / 62 ≤ f := by omega
      rw [encodeLoopFuel, if_neg (by omega), ih (n / 62) hdiv, Option.map_some']
      conv_rhs => rw [encodeDigits]
      rw [dif_neg (by omega)]

end EncoderLemmas

section RepoLemmas

lemma emptyRepo_inv : RepoInv emptyRepo := by
  constructor
  · exact Nat.le_refl 1
  · intro r hr
    simp [emptyRepo] at hr

/-- On any state whose counter is positive, `create` succeeds and its result
has the closed form: the fresh row is appended with the encoded code, and the
counter advances by one. -/
lemma create_ok (st : RepoState) (u : String) (h1 : 1 ≤ st.nextId) :
    ∃ code, encode_base62 (Int.ofNat st.nextId) = Except.ok code ∧
      URLRepository.create st u =
        Except.ok (⟨st.nextId, u, code⟩,
          ⟨(st.rows.map
              (fun r => if r.id = st.nextId then ⟨r.id, r.original_url, code⟩ else r))
            ++ [⟨st.nextId, u, code⟩],
           st.nextId + 1⟩) := by
  obtain ⟨code, hok, -, -⟩ := encode_base62_wf (Int.ofNat st.nextId) (Int.ofNat_le.mpr h1)
  refine ⟨code, hok, ?_⟩
  unfold URLRepository.create
  simp only [insertRow, hok]
  simp [updateCode]

/-- Under the invariant the fresh row survives `updateCode` untouched rows:
the post-state rows are exactly the old rows followed by the new record. -/
lemma create_ok_inv (st : RepoState) (u : String) (hinv : RepoInv st) :
    ∃ code, encode_base62 (Int.ofNat st.nextId) = Except.ok code ∧
      URLRepository.create st u =
        Except.ok (⟨st.nextId, u, code⟩,
          ⟨st.rows ++ [⟨st.nextId, u, code⟩], st.nextId + 1⟩) := by
  obtain ⟨h1, hrows⟩ := hinv
  obtain ⟨code, hok, hcreate⟩ := create_ok st u h1
  refine ⟨code, hok, ?_⟩
  rw [hcreate]
  have hmap : st.rows.map
      (fun r => if r.id = st.nextId then ⟨r.id, r.original_url, code⟩ else r) =
      st.rows := by
    conv_rhs => rw [← List.map_id st.rows]
    apply List.map_congr_left
    intro r hr
    have hlt := (hrows r hr).2.1
    simp only [id]
    rw [if_neg (by omega)]
  rw [hmap]

/-- `create` preserves the reachable-state invariant. -/
lemma create_preserves_inv (st : RepoState) (u : String) (hinv : RepoInv st) :
    ∀ s st2, URLRepository.create st u = Except.ok (s, st2) → RepoInv st2 := by
  intro s st2 hc
  obtain ⟨code, hok, hcreate⟩ := create_ok_inv st u hinv
  rw [hcreate] at hc
  injection hc with hpair
  injection hpair with hs hst
  subst hst
  obtain ⟨h1, hrows⟩ := hinv
  refine ⟨Nat.succ_le_succ (Nat.zero_le _), ?_⟩
  intro r hr
  have hr2 : r ∈ st.rows ++ [⟨st.nextId, u, code⟩] := hr
  rcases List.mem_append.mp hr2 with hold | hnew
  · obtain ⟨ha, hb, hc'⟩ := hrows r hold
    refine ⟨ha, ?_, hc'⟩
    show r.id < st.nextId + 1
    omega
  · have hre : r = ⟨st.nextId, u, code⟩ := List.mem_singleton.mp hnew
    subst hre
    refine ⟨h1, ?_, hok⟩
    show st.nextId < st.nextId + 1
    omega

end RepoLemmas

/-- C1: for every integer n ≥ 1, `encode_base62 n` succeeds and equals the
standard positional base-62 representation of n over the alphabet
0-9, a-z, A-Z (most-significant digit first, no leading-zero padding),
where the standard representation is defined independently via `Nat.digits`. -/
theorem claim_C1_encode_standard (n : Int) (h : 1 ≤ n) :
    encode_base62 n = Except.ok (standardBase62Rep n.toNat) :=
  encode_base62_eq_standard n h

theorem claim_C1_witness :
    (1:Int) ≤ 63 ∧ encode_base62 63 = Except.ok (standardBase62Rep (63:Int).toNat) :=
  ⟨by decide, claim_C1_encode_standard 63 (by decide)⟩

/-- C7: for every integer n ≤ 0 (in particular 0 and -5), `encode_base62 n`
fails with the ValueError condition and produces no output: it never returns
normally on such inputs. -/
theorem claim_C7_encode_nonpositive (n : Int) (h : n ≤ 0) :
    encode_base62 n = Except.error "number must be positive" := by
  unfold encode_base62
  rw [if_pos h]

theorem claim_C7_witness :
    (-5:Int) ≤ 0 ∧ encode_base62 (-5) = Except.error "number must be positive" :=
  ⟨by decide, claim_C7_encode_nonpositive (-5) (by decide)⟩

/-- C10: `encode_base62` terminates on every positive input: the fuelled
rendering of the `while` loop finishes within n iterations (the quotient
strictly decreases under division by 62), and the function returns normally. -/
theorem claim_C10_encode_terminates (n : Int) (h : 1 ≤ n) :
    encodeLoopFuel n.toNat n.toNat = some (encodeDigits n.toNat) ∧
      ∃ s, encode_base62 n = Except.ok s :=
  ⟨encodeLoopFuel_eq n.toNat n.toNat (Nat.le_refl _),
   String.mk (encodeDigits n.toNat).reverse, encode_base62_pos n h⟩

theorem claim_C10_witness :
    (1:Int) ≤ 100 ∧
      (encodeLoopFuel (100:Int).toNat (100:Int).toNat =
          some (encodeDigits (100:Int).toNat) ∧
        ∃ s, encode_base62 100 = Except.ok s) :=
  ⟨by decide, claim_C10_encode_terminates 100 (by decide)⟩

/-- C6: for all integers m, n ≥ 1, `encode_base62 n` succeeds with a nonempty
string over the 62-symbol alphabet, and the encoder is injective: distinct
positive inputs yield distinct outputs. -/
theorem claim_C6_encode_wf_inj (m n : Int) (hm : 1 ≤ m) (hn : 1 ≤ n) :
    (∃ s, encode_base62 n = Except.ok s ∧ s ≠ "" ∧
        ∀ c ∈ s.data, c ∈ BASE62_ALPHABET.data) ∧
      (m ≠ n → encode_base62 m ≠ encode_base62 n) := by
  refine ⟨encode_base62_wf n hn, fun hne he => hne ?_⟩
  exact encode_base62_inj m n hm hn he

theorem claim_C6_witness :
    (1:Int) ≤ 61 ∧ (1:Int) ≤ 62 ∧
      ((∃ s, encode_base62 62 = Except.ok s ∧ s ≠ "" ∧
          ∀ c ∈ s.data, c ∈ BASE62_ALPHABET.data) ∧
        ((61:Int) ≠ 62 → encode_base62 61 ≠ encode_base62 62)) :=
  ⟨by decide, by decide, claim_C6_encode_wf_inj 61 62 (by decide) (by decide)⟩

section MoreRepoLemmas

/-- A successful encoding is never the empty string. -/
lemma encode_ok_ne_empty (n : Int) (c : String)
    (h : encode_base62 n = Except.ok c) : c ≠ "" := by
  by_cases hn : n ≤ 0
  · unfold encode_base62 at h
    rw [if_pos hn] at h
    simp at h
  · obtain ⟨s, hok, hne, -⟩ := encode_base62_wf n (by omega)
    rw [hok] at h
    injection h with hc
    exact hc ▸ hne

/-- Appending a matching row after rows that all fail the predicate makes
`find?` return exactly that row. -/
lemma find?_append_singleton (l : List ShortURL) (x : ShortURL)
    (p : ShortURL → Bool) (hl : ∀ r ∈ l, p r = false) (hx : p x = true) :
    (l ++ [x]).find? p = some x := by
  induction l with
  | nil => simp [List.find?, hx]
  | cons a t ih =>
    rw [List.cons_append, List.find?_cons_of_neg]
    · exact ih (fun r hr => hl r (List.mem_cons_of_mem _ hr))
    · simp [hl a (List.mem_cons_self a t)]

end MoreRepoLemmas

/-- C2: from any repository state whose identifier counter is positive (true
of every reachable state) and any nonempty URL, `create` returns a record
whose id is the newly assigned identifier, whose original_url is the input
verbatim, and whose code is exactly the encoding of that id. -/
theorem claim_C2_create_fields (st : RepoState) (u : String) (_hu : u ≠ "")
    (h1 : 1 ≤ st.nextId) :
    ∃ s st2, URLRepository.create st u = Except.ok (s, st2) ∧
      s.id = st.nextId ∧ s.original_url = u ∧
      encode_base62 (Int.ofNat s.id) = Except.ok s.code := by
  obtain ⟨code, hok, hcreate⟩ := create_ok st u h1
  exact ⟨⟨st.nextId, u, code⟩, _, hcreate, rfl, rfl, hok⟩

theorem claim_C2_witness :
    "https://example.com" ≠ "" ∧ 1 ≤ emptyRepo.nextId ∧
      ∃ s st2, URLRepository.create emptyRepo "https://example.com" =
          Except.ok (s, st2) ∧
        s.id = emptyRepo.nextId ∧ s.original_url = "https://example.com" ∧
        encode_base62 (Int.ofNat s.id) = Except.ok s.code :=
  ⟨by decide, by decide,
   claim_C2_create_fields emptyRepo "https://example.com" (by decide) (by decide)⟩

/-- C3: round trip — after a successful `create u` from an invariant
(reachable) state, `fetch_by_code` on the returned code finds exactly the
created record (same id and code), whose original_url is `u`. -/
theorem claim_C3_create_fetch_roundtrip (st : RepoState) (u : String)
    (_hu : u ≠ "") (hinv : RepoInv st) :
    ∃ s st2, URLRepository.create st u = Except.ok (s, st2) ∧
      URLRepository.fetch_by_code st2 s.code = some s ∧
      s.original_url = u := by
  obtain ⟨code, hok, hcreate⟩ := create_ok_inv st u hinv
  refine ⟨⟨st.nextId, u, code⟩, _, hcreate, ?_, rfl⟩
  have hskip : ∀ r ∈ st.rows,
      (fun r' : ShortURL => decide (r'.code = code)) r = false := by
    intro r hr
    obtain ⟨hr1, hr2, hr3⟩ := hinv.2 r hr
    simp only [decide_eq_false_iff_not]
    intro hcontra
    have henc : encode_base62 (Int.ofNat r.id) =
        encode_base62 (Int.ofNat st.nextId) := by
      rw [hr3, hok, hcontra]
    have hid := Int.ofNat.inj
      (encode_base62_inj _ _ (Int.ofNat_le.mpr hr1) (Int.ofNat_le.mpr hinv.1) henc)
    omega
  exact find?_append_singleton st.rows ⟨st.nextId, u, code⟩
    (fun r' => decide (r'.code = code)) hskip (by simp)

theorem claim_C3_witness :
    "https://example.com/x" ≠ "" ∧ RepoInv emptyRepo ∧
      ∃ s st2, URLRepository.create emptyRepo "https://example.com/x" =
          Except.ok (s, st2) ∧
        URLRepository.fetch_by_code st2 s.code = some s ∧
        s.original_url = "https://example.com/x" :=
  ⟨by decide, emptyRepo_inv,
   claim_C3_create_fetch_roundtrip emptyRepo "https://example.com/x"
     (by decide) emptyRepo_inv⟩

/-- C4: the insert-then-update inside `create` runs in one transaction,
committed on success and rolled back on every failing exit path.  Hence
(a) on success the final code is nonempty and any reader doing exact-match
lookup by the final code, at any point observable during `create`, only ever
obtains a record whose code equals that nonempty final code; and (b) on
failure the committed state is unchanged at every observable point. -/
theorem claim_C4_transactional (st : RepoState) (u : String) :
    (∀ s st2, URLRepository.create st u = Except.ok (s, st2) →
        s.code ≠ "" ∧
          ∀ vis ∈ createObservableStates st u, ∀ r,
            URLRepository.fetch_by_code vis s.code = some r → r.code ≠ "") ∧
      ∀ e, URLRepository.create st u = Except.error e →
        createObservableStates st u = [st, st] := by
  constructor
  · intro s st2 hc
    have hc' := hc
    simp only [URLRepository.create, insertRow] at hc'
    cases hmatch : encode_base62 (Int.ofNat st.nextId) with
    | error e =>
      rw [hmatch] at hc'
      simp at hc'
    | ok code =>
      rw [hmatch] at hc'
      injection hc' with hp
      injection hp with hs hst
      have hcode : s.code = code := by rw [← hs]
      constructor
      · rw [hcode]
        exact encode_ok_ne_empty _ _ hmatch
      · intro vis hvis r hr
        unfold URLRepository.fetch_by_code at hr
        have h1 := List.find?_some hr
        have h2 : r.code = s.code := by simpa using h1
        rw [h2, hcode]
        exact encode_ok_ne_empty _ _ hmatch
  · intro e he
    unfold createObservableStates
    rw [he]

theorem claim_C4_witness :
    (∀ s st2,
        URLRepository.create emptyRepo "https://example.net" = Except.ok (s, st2) →
          s.code ≠ "" ∧
            ∀ vis ∈ createObservableStates emptyRepo "https://example.net", ∀ r,
              URLRepository.fetch_by_code vis s.code = some r → r.code ≠ "") ∧
      ∀ e, URLRepository.create emptyRepo "https://example.net" = Except.error e →
        createObservableStates emptyRepo "https://example.net" =
          [emptyRepo, emptyRepo] :=
  claim_C4_transactional emptyRepo "https://example.net"

/-- C5: two sequential completed `create` calls from an invariant (reachable)
state yield a second id strictly greater than the first (hence distinct), ids
below the updated counter so no id is ever reused, and distinct codes. -/
theorem claim_C5_sequential_creates (st : RepoState) (u1 u2 : String)
    (s1 : ShortURL) (st1 : RepoState) (s2 : ShortURL) (st2 : RepoState)
    (hinv : RepoInv st)
    (h1 : URLRepository.create st u1 = Except.ok (s1, st1))
    (h2 : URLRepository.create st1 u2 = Except.ok (s2, st2)) :
    s1.id < s2.id ∧ s1.id ≠ s2.id ∧ s1.code ≠ s2.code ∧
      ∀ r ∈ st2.rows, r.id < st2.nextId := by
  have hinv1 : RepoInv st1 := create_preserves_inv st u1 hinv s1 st1 h1
  have hinv2 : RepoInv st2 := create_preserves_inv st1 u2 hinv1 s2 st2 h2
  obtain ⟨c1, hok1, hc1⟩ := create_ok_inv st u1 hinv
  obtain ⟨c2, hok2, hc2⟩ := create_ok_inv st1 u2 hinv1
  rw [hc1] at h1
  injection h1 with hp1
  injection hp1 with hs1 hst1
  rw [hc2] at h2
  injection h2 with hp2
  injection hp2 with hs2 hst2
  have hid1 : s1.id = st.nextId := by rw [← hs1]
  have hid2 : s2.id = st1.nextId := by rw [← hs2]
  have hnext1 : st1.nextId = st.nextId + 1 := by rw [← hst1]
  have hcode1 : s1.code = c1 := by rw [← hs1]
  have hcode2 : s2.code = c2 := by rw [← hs2]
  refine ⟨by omega, by omega, ?_, ?_⟩
  · rw [hcode1, hcode2]
    intro hcc
    have henc : encode_base62 (Int.ofNat st.nextId) =
        encode_base62 (Int.ofNat st1.nextId) := by
      rw [hok1, hok2, hcc]
    have hid := Int.ofNat.inj (encode_base62_inj _ _
      (Int.ofNat_le.mpr hinv.1) (Int.ofNat_le.mpr hinv1.1) henc)
    omega
  · intro r hr
    exact ((hinv2.2) r hr).2.1

theorem claim_C5_witness :
    ∃ s1 st1 s2 st2,
      URLRepository.create emptyRepo "https://first.example" =
          Except.ok (s1, st1) ∧
        URLRepository.create st1 "https://second.example" =
          Except.ok (s2, st2) ∧
        (s1.id < s2.id ∧ s1.id ≠ s2.id ∧ s1.code ≠ s2.code ∧
          ∀ r ∈ st2.rows, r.id < st2.nextId) := by
  obtain ⟨c1, hok1, hc1⟩ := create_ok_inv emptyRepo "https://first.example" emptyRepo_inv
  have hinv1 := create_preserves_inv emptyRepo "https://first.example"
    emptyRepo_inv _ _ hc1
  obtain ⟨c2, hok2, hc2⟩ := create_ok_inv _ "https://second.example" hinv1
  exact ⟨_, _, _, _, hc1, hc2,
    claim_C5_sequential_creates emptyRepo "https://first.example"
      "https://second.example" _ _ _ _ emptyRepo_inv hc1 hc2⟩

/-- C8: `fetch_by_code` is total (it returns an explicit result, never
raises): it returns `none` exactly when no stored record carries the code —
in particular for any code never issued — and whenever it returns a record,
that record is stored and matches the queried code exactly. -/
theorem claim_C8_fetch_semantics (st : RepoState) (code : String) :
    (URLRepository.fetch_by_code st code = none ↔
        ∀ r ∈ st.rows, r.code ≠ code) ∧
      ∀ r, URLRepository.fetch_by_code st code = some r →
        r ∈ st.rows ∧ r.code = code := by
  constructor
  · unfold URLRepository.fetch_by_code
    rw [List.find?_eq_none]
    constructor
    · intro h r hr
      simpa using h r hr
    · intro h r hr
      simpa using h r hr
  · intro r hr
    unfold URLRepository.fetch_by_code at hr
    refine ⟨List.mem_of_find?_eq_some hr, ?_⟩
    simpa using List.find?_some hr

theorem claim_C8_witness :
    (URLRepository.fetch_by_code emptyRepo "neverIssued" = none ↔
        ∀ r ∈ emptyRepo.rows, r.code ≠ "neverIssued") ∧
      ∀ r, URLRepository.fetch_by_code emptyRepo "neverIssued" = some r →
        r ∈ emptyRepo.rows ∧ r.code = "neverIssued" :=
  claim_C8_fetch_semantics emptyRepo "neverIssued"

/-- C9: a POST /shorten request whose body is absent or unparseable as JSON
(`body = none`) is handled exactly like a parseable JSON object missing the
`url` field: both return the 400 response with message `url is required`,
and in both cases the repository state is returned unchanged — `create` is
never reached. -/
theorem claim_C9_shorten_missing_body (base_url : String) (st : RepoState)
    (fields : List (String × PyJson)) (hf : dictGet fields "url" = none) :
    shorten base_url st none =
        Except.ok (⟨400, PyJson.obj [("error", PyJson.str "url is required")]⟩, st) ∧
      shorten base_url st (some (PyJson.obj fields)) =
        Except.ok (⟨400, PyJson.obj [("error", PyJson.str "url is required")]⟩, st) := by
  refine ⟨rfl, ?_⟩
  cases fields with
  | nil => rfl
  | cons kv rest => simp [shorten, pyTruthy, hf]

theorem claim_C9_witness :
    dictGet [("other", PyJson.num 1)] "url" = none ∧
      (shorten "http://localhost:5000" emptyRepo none =
          Except.ok
            (⟨400, PyJson.obj [("error", PyJson.str "url is required")]⟩,
             emptyRepo) ∧
        shorten "http://localhost:5000" emptyRepo
            (some (PyJson.obj [("other", PyJson.num 1)])) =
          Except.ok
            (⟨400, PyJson.obj [("error", PyJson.str "url is required")]⟩,
             emptyRepo)) :=
  ⟨rfl, claim_C9_shorten_missing_body "http://localhost:5000" emptyRepo
    [("other", PyJson.num 1)] rfl⟩
